import Mathlib

/-!
Shallow embedding of `src/adapters/lokijs/worker/executor.js` (WatermelonDB's
LokiJS worker executor): the record-presence cache, the CRUD/batch operations,
the local key-value storage holding the schema-version marker, and the
schema-migration state machine.

Modelling conventions:
* JavaScript objects/maps become association lists (`List (String × _)`) with a
  consistent first-entry-wins discipline, matching lokijs's `getCollection`
  (first collection with a given name) and JS `Map`/`Set` semantics.
* Stateful methods of the `LokiExecutor` class become functions
  `Executor → ... → Except String α × Executor`; a thrown JS exception is
  `Except.error` paired with the state as mutated up to the throw point
  (mutations before a throw persist, as they do on the JS `this`).
* The lokijs store itself is an external collaborator (spec §1, §6); its
  operations (insert / update by internal `$loki` id / remove / point lookup
  by unique field / findAndUpdate / ensureIndex) are modelled from the spec's
  Store API description.
-/

deriving instance DecidableEq for Except

namespace WatermelonLoki

/-- Scalar values stored in raw-record fields (JS string / number / boolean / null). -/
inductive Value
  | str (s : String)
  | num (n : Int)
  | bool (b : Bool)
  | null
deriving DecidableEq

/-- Association-list lookup: first entry with the given key wins (JS object /
lokijs `getCollection` scan order). -/
def alGet {α : Type} : List (String × α) → String → Option α
  | [], _ => none
  | (k₂, v) :: rest, k => if k₂ = k then some v else alGet rest k

/-- Association-list update: replace the first entry with the given key, or
append a new entry (JS property assignment). -/
def alSet {α : Type} : List (String × α) → String → α → List (String × α)
  | [], k, v => [(k, v)]
  | (k₂, v₂) :: rest, k, v => if k₂ = k then (k, v) :: rest else (k₂, v₂) :: alSet rest k v

/-- A raw record's fields (column name → scalar value). -/
abbrev Fields := List (String × Value)

def getField (fs : Fields) (k : String) : Option Value := alGet fs k

def setField (fs : Fields) (k : String) (v : Value) : Fields := alSet fs k v

/-- Column schema: spec §3 ("`ColumnSchema` carries at least
`{ name, isIndexed : bool, isSearchable : bool }`"). -/
structure ColumnSchema where
  name : String
  isIndexed : Bool
  isSearchable : Bool
deriving DecidableEq

structure TableSchema where
  name : String
  columns : List ColumnSchema
deriving DecidableEq

structure AppSchema where
  version : Nat
  tables : List TableSchema
deriving DecidableEq

/-- `schema.tables[table]` (JS object index). -/
def schemaTable (s : AppSchema) (t : String) : Option TableSchema :=
  s.tables.find? (fun ts => ts.name == t)

/-- A `RawRecord`: always carries `id` and `_status` (spec §3). -/
structure RawRecord where
  id : String
  status : String
  fields : Fields
deriving DecidableEq

/-- The JS object actually handed to the store: its `id` and `_status`
properties together with the remaining fields. -/
def rawToFields (r : RawRecord) : Fields :=
  ("id", Value.str r.id) :: ("_status", Value.str r.status) :: r.fields

/-- One migration step. The source dispatches on a runtime string tag
(`step.type`), with a `throw` default branch, so an unknown tag is
representable. -/
inductive MigrationStep
  | createTable (name : String) (columns : List ColumnSchema)
  | addColumns (table : String) (columns : List ColumnSchema)
  | unknown (tag : String)
deriving DecidableEq

/-- Modelled from the spec: a declared migration covers a contiguous
`[fromVersion, toVersion]` interval and carries an ordered list of steps
(spec §3, §4.2). The migration-declaration format itself lives outside
`src/`. -/
structure Migration where
  fromVersion : Nat
  toVersion : Nat
  steps : List MigrationStep
deriving DecidableEq

abbrev SchemaMigrations := List Migration

/-- A stored document: lokijs's internal `$loki` identity plus the record
fields. Modelled from the spec's Store API (spec §6): the store owns an
internal identity distinct from the application-level `id`. -/
structure LokiDoc where
  lokiId : Nat
  fields : Fields
deriving DecidableEq

/-- A lokijs collection: documents, the source of fresh `$loki` ids, the
unique-field constraint and the indexed fields (spec §6 `add-collection`). -/
structure LokiCollection where
  records : List LokiDoc
  maxId : Nat
  uniques : List String
  indices : List String
deriving DecidableEq

structure Loki where
  collections : List (String × LokiCollection)
deriving DecidableEq

def emptyCollection (uniques indices : List String) : LokiCollection :=
  ⟨[], 0, uniques, indices⟩

def emptyLoki : Loki := ⟨[]⟩

/-- lokijs `getCollection`: first collection with the given name. -/
def getCollection (db : Loki) (name : String) : Option LokiCollection :=
  alGet db.collections name

/-- lokijs `addCollection`: always appends (no name-clash check). -/
def addCollection (db : Loki) (name : String) (uniques indices : List String) : Loki :=
  ⟨db.collections ++ [(name, emptyCollection uniques indices)]⟩

/-- Write back a mutated collection object: updates the first entry with that
name (the one `getCollection` returned). -/
def setCollection (db : Loki) (name : String) (c : LokiCollection) : Loki :=
  ⟨alSet db.collections name c⟩

/-- Does this document's `id` field equal the given record id
(lokijs `by('id', id)` point lookup on the unique field)? -/
def docHasId (d : LokiDoc) (recordId : String) : Bool :=
  match getField d.fields "id" with
  | some (Value.str s) => s == recordId
  | _ => false

/-- lokijs `collection.by('id', id)`. -/
def byId (c : LokiCollection) (recordId : String) : Option LokiDoc :=
  c.records.find? (fun d => docHasId d recordId)

/-- Modelled from the spec: sanitization is out of scope ("the raw-record
sanitization/normalization rules (assumed provided as a pure function
`sanitize(raw, tableSchema) -> RawRecord`)", spec §1); a column's sanitized
default value is abstracted as `null`. -/
def sanitizedDefault (_c : ColumnSchema) : Value := Value.null

/-- Modelled from the spec: `sanitizedRaw(raw, tableSchema)` from the
`RawRecord` module is not under `src/`; we model it as keeping `id` and
`_status` and, for each schema column, the raw value when present, else the
column's sanitized default. -/
def sanitizedRaw (fs : Fields) (ts : TableSchema) : Fields :=
  ("id", (getField fs "id").getD Value.null) ::
  ("_status", (getField fs "_status").getD Value.null) ::
  ts.columns.map (fun c => (c.name, (getField fs c.name).getD (sanitizedDefault c)))

/-- Modelled from the spec: `setRawSanitized(record, name, null, column)` from
the `RawRecord` module is not under `src/`; per spec §4.2, AddColumns sets
"each new column to its sanitized default value". -/
def setRawSanitized (fs : Fields) (name : String) (c : ColumnSchema) : Fields :=
  setField fs name (sanitizedDefault c)

-- ## Executor state

/-- The executor: schema and migrations fixed at construction, the live store,
and the per-table record-presence cache (`Map TableName (Set RecordId)`). -/
structure Executor where
  schema : AppSchema
  migrations : Option SchemaMigrations
  loki : Loki
  cachedRecords : List (String × List String)
deriving DecidableEq

/-- `isCached(table, id)`. -/
def isCached (e : Executor) (table recordId : String) : Bool :=
  match alGet e.cachedRecords table with
  | some s => s.contains recordId
  | none => false

/-- `markAsCached(table, id)` (JS `Set.add`: append when absent). -/
def markAsCached (e : Executor) (table recordId : String) : Executor :=
  match alGet e.cachedRecords table with
  | some s =>
    { e with cachedRecords :=
        alSet e.cachedRecords table (if s.contains recordId then s else s ++ [recordId]) }
  | none => { e with cachedRecords := e.cachedRecords ++ [(table, [recordId])] }

/-- `removeFromCache(table, id)` (JS `Set.delete`). -/
def removeFromCache (e : Executor) (table recordId : String) : Executor :=
  match alGet e.cachedRecords table with
  | some s =>
    { e with cachedRecords := alSet e.cachedRecords table (s.filter (fun x => x != recordId)) }
  | none => e

/-- `CachedFindResult = RecordId | ?CachedRecord` (null for absent). -/
inductive CachedFindResult
  | absent
  | id (recordId : String)
  | record (fields : Fields)
deriving DecidableEq

/-- `find(table, id)`: compaction policy — a cached id is returned bare; an
uncached hit is sanitized, cached and returned in full. Note the source marks
the id cached *before* calling `sanitizedRaw` (whose table-schema lookup can
fail), so on that failure the cache is already mutated. -/
def find (e : Executor) (table recordId : String) : Except String CachedFindResult × Executor :=
  if isCached e table recordId then (Except.ok (CachedFindResult.id recordId), e)
  else
    match getCollection e.loki table with
    | none => (Except.error "no such collection", e)
    | some c =>
      match byId c recordId with
      | none => (Except.ok CachedFindResult.absent, e)
      | some d =>
        let e₂ := markAsCached e table recordId
        match schemaTable e.schema table with
        | none => (Except.error "table not in schema", e₂)
        | some ts => (Except.ok (CachedFindResult.record (sanitizedRaw d.fields ts)), e₂)

/-- `create(table, raw)`: insert into the store (fresh `$loki`), mark cached. -/
def create (e : Executor) (table : String) (raw : RawRecord) : Except String Unit × Executor :=
  match getCollection e.loki table with
  | none => (Except.error "no such collection", e)
  | some c =>
    let doc : LokiDoc := ⟨c.maxId + 1, rawToFields raw⟩
    let c₂ := { c with records := c.records ++ [doc], maxId := c.maxId + 1 }
    let e₂ := { e with loki := setCollection e.loki table c₂ }
    (Except.ok (), markAsCached e₂ table raw.id)

/-- `update(table, raw)`: resolve the stored record's `$loki` by application
`id`, then rewrite it in place. When no record with that id exists the source
dereferences `null.$loki` and throws before mutating anything. -/
def update (e : Executor) (table : String) (raw : RawRecord) : Except String Unit × Executor :=
  match getCollection e.loki table with
  | none => (Except.error "no such collection", e)
  | some c =>
    match byId c raw.id with
    | none => (Except.error "record not found", e)
    | some d =>
      let doc : LokiDoc := ⟨d.lokiId, rawToFields raw⟩
      let c₂ := { c with records := c.records.map (fun r => if r.lokiId = d.lokiId then doc else r) }
      (Except.ok (), { e with loki := setCollection e.loki table c₂ })

/-- `destroyPermanently(table, id)`: look up, remove from the store, evict from
the cache. The store's `remove` on an absent (null) record is out of scope;
Modelled from the spec: spec §4.4 specifies permanent destruction of an absent
record as a no-op on the store (the cache eviction still runs). -/
def destroyPermanently (e : Executor) (table recordId : String) :
    Except String Unit × Executor :=
  match getCollection e.loki table with
  | none => (Except.error "no such collection", e)
  | some c =>
    let c₂ :=
      match byId c recordId with
      | some d => { c with records := c.records.filter (fun r => r.lokiId != d.lokiId) }
      | none => c
    let e₂ := { e with loki := setCollection e.loki table c₂ }
    (Except.ok (), removeFromCache e₂ table recordId)

/-- `markAsDeleted(table, id)`: set `_status = 'deleted'`, persist, evict from
cache; an absent record is a guarded no-op. -/
def markAsDeleted (e : Executor) (table recordId : String) : Except String Unit × Executor :=
  match getCollection e.loki table with
  | none => (Except.error "no such collection", e)
  | some c =>
    match byId c recordId with
    | none => (Except.ok (), e)
    | some d =>
      let d₂ : LokiDoc := { d with fields := setField d.fields "_status" (Value.str "deleted") }
      let c₂ := { c with records := c.records.map (fun r => if r.lokiId = d.lokiId then d₂ else r) }
      let e₂ := { e with loki := setCollection e.loki table c₂ }
      (Except.ok (), removeFromCache e₂ table recordId)

/-- One batch operation `[type, table, raw]`; the source's `switch` has a
silent `default: break`, so an unknown tag is representable. -/
inductive WorkerBatchOperation
  | create (table : String) (raw : RawRecord)
  | update (table : String) (raw : RawRecord)
  | markAsDeleted (table : String) (raw : RawRecord)
  | destroyPermanently (table : String) (raw : RawRecord)
  | unknown (tag : String) (table : String) (raw : RawRecord)
deriving DecidableEq

def applyOperation (e : Executor) : WorkerBatchOperation → Except String Unit × Executor
  | .create t raw => create e t raw
  | .update t raw => update e t raw
  | .markAsDeleted t raw => markAsDeleted e t raw.id
  | .destroyPermanently t raw => destroyPermanently e t raw.id
  | .unknown _ _ _ => (Except.ok (), e)

/-- `batch(operations)`: strictly in order, not transactional — a thrown
operation aborts the rest but leaves prior mutations committed. -/
def batch : Executor → List WorkerBatchOperation → Except String Unit × Executor
  | e, [] => (Except.ok (), e)
  | e, op :: rest =>
    match applyOperation e op with
    | (Except.ok _, e₂) => batch e₂ rest
    | (Except.error msg, e₂) => (Except.error msg, e₂)

/-- The per-id loop body of `destroyDeletedRecords`: `record && collection.remove(record)`. -/
def removeDeletedIds : LokiCollection → List String → LokiCollection
  | c, [] => c
  | c, recordId :: rest =>
    match byId c recordId with
    | some d => removeDeletedIds { c with records := c.records.filter (fun r => r.lokiId != d.lokiId) } rest
    | none => removeDeletedIds c rest

/-- `destroyDeletedRecords(table, ids)`: best-effort removal, absent ids
skipped silently; the cache is not touched. -/
def destroyDeletedRecords (e : Executor) (table : String) (ids : List String) :
    Except String Unit × Executor :=
  match getCollection e.loki table with
  | none => (Except.error "no such collection", e)
  | some c => (Except.ok (), { e with loki := setCollection e.loki table (removeDeletedIds c ids) })

-- ## Local key-value storage and the schema-version marker

/-- The reserved local key `_loki_schema_version`. -/
def schemaVersionKey : String := "_loki_schema_version"

/-- Does this `local_storage` document's `key` field equal the given key
(lokijs `by('key', key)` on the unique field)? -/
def docHasKey (d : LokiDoc) (key : String) : Bool :=
  match getField d.fields "key" with
  | some (Value.str s) => s == key
  | _ => false

/-- `_findLocal(key)`: null-safe (`localStorage && localStorage.by(...)`). -/
def findLocal (e : Executor) (key : String) : Option LokiDoc :=
  match getCollection e.loki "local_storage" with
  | none => none
  | some c => c.records.find? (fun d => docHasKey d key)

/-- `getLocal(key)`: `record ? record.value : null`. A clobbered non-string
`value` field is observably null to the version logic and modelled as `none`. -/
def getLocal (e : Executor) (key : String) : Option String :=
  match findLocal e key with
  | some d =>
    match getField d.fields "value" with
    | some (Value.str v) => some v
    | _ => none
  | none => none

/-- `setLocal(key, value)`: upsert. When the record is absent and the
`local_storage` collection does not exist, the source dereferences null and
throws. -/
def setLocal (e : Executor) (key value : String) : Except String Unit × Executor :=
  match findLocal e key with
  | some d =>
    match getCollection e.loki "local_storage" with
    | none => (Except.error "no local_storage collection", e)
    | some c =>
      let d₂ : LokiDoc := { d with fields := setField d.fields "value" (Value.str value) }
      let c₂ := { c with records := c.records.map (fun r => if r.lokiId = d.lokiId then d₂ else r) }
      (Except.ok (), { e with loki := setCollection e.loki "local_storage" c₂ })
  | none =>
    match getCollection e.loki "local_storage" with
    | none => (Except.error "no local_storage collection", e)
    | some c =>
      let doc : LokiDoc := ⟨c.maxId + 1, [("key", Value.str key), ("value", Value.str value)]⟩
      let c₂ := { c with records := c.records ++ [doc], maxId := c.maxId + 1 }
      (Except.ok (), { e with loki := setCollection e.loki "local_storage" c₂ })

/-- One step of the decimal-parse loop (JS `parseInt(s, 10)` accumulator). -/
def parseStep (acc : Nat) (c : Char) : Nat := 10 * acc + (c.toNat - 48)

/-- Models JS `parseInt(s, 10)` on the values this code stores: consume the
leading run of decimal digits; no leading digit means NaN (`none`). -/
def jsParseInt10 (s : String) : Option Nat :=
  let ds := s.data.takeWhile (fun c => c.isDigit)
  if ds.isEmpty then none
  else some (ds.foldl parseStep 0)

/-- Fuel-driven decimal printing loop (most significant digit first once the
accumulator is reversed out); fuel `n + 1` always suffices for `n`. -/
def natDecimalChars : Nat → Nat → List Char → List Char
  | 0, _, acc => acc
  | fuel + 1, n, acc =>
    if n = 0 then acc
    else natDecimalChars fuel (n / 10) (Nat.digitChar (n % 10) :: acc)

/-- Models the JS template string `${version}`: decimal representation. -/
def jsNatToString (n : Nat) : String :=
  if n = 0 then "0" else String.mk (natDecimalChars (n + 1) n [])

/-- `get _databaseVersion`: `parseInt(this.getLocal(KEY) || '', 10) || 0`. -/
def databaseVersion (e : Executor) : Nat :=
  (jsParseInt10 ((getLocal e schemaVersionKey).getD "")).getD 0

/-- `set _databaseVersion(version)`: `setLocal(KEY, toString(version))`. -/
def setDatabaseVersion (e : Executor) (version : Nat) : Except String Unit × Executor :=
  setLocal e schemaVersionKey (jsNatToString version)

-- ## Schema setup, reset and migration

/-- The indexed-column accumulation in `_addCollection` (a `reduce` keeping
declaration order). -/
def indexedColumnNames (columns : List ColumnSchema) : List String :=
  columns.foldl (fun acc c => if c.isIndexed then acc ++ [c.name] else acc) []

/-- `_addCollection(tableSchema)`: unique on `id`, indices `_status` plus the
indexed columns. -/
def addTableCollection (e : Executor) (ts : TableSchema) : Executor :=
  { e with loki := addCollection e.loki ts.name ["id"] ("_status" :: indexedColumnNames ts.columns) }

/-- `_setUpSchema`: one collection per schema table, the `local_storage`
collection (unique on `key`), then write the schema version marker. -/
def setUpSchema (e : Executor) : Except String Unit × Executor :=
  let e₂ := e.schema.tables.foldl addTableCollection e
  let e₃ := { e₂ with loki := addCollection e₂.loki "local_storage" ["key"] [] }
  setDatabaseVersion e₃ e₃.schema.version

/-- Models `unsafeResetDatabase`: delete the database, clear the cache fully,
reopen (fresh empty store) and set up the schema. -/
def resetDatabase (e : Executor) : Except String Unit × Executor :=
  setUpSchema { e with loki := emptyLoki, cachedRecords := [] }

/-- lokijs `ensureIndex(name)`: add the index if not already present. -/
def ensureIndex (c : LokiCollection) (name : String) : LokiCollection :=
  if c.indices.contains name then c else { c with indices := c.indices ++ [name] }

/-- The `findAndUpdate({}, ...)` mutator of `_executeAddColumnsMigration`:
`setRawSanitized(record, column.name, null, column)` for each new column. -/
def addDefaultFields (columns : List ColumnSchema) (fs : Fields) : Fields :=
  columns.foldl (fun acc col => setRawSanitized acc col.name col) fs

/-- `_executeAddColumnsMigration({table, columns})`: bulk in-place rewrite of
every record, then `ensureIndex` for each indexed new column. -/
def executeAddColumnsMigration (e : Executor) (table : String) (columns : List ColumnSchema) :
    Except String Unit × Executor :=
  match getCollection e.loki table with
  | none => (Except.error "no such collection", e)
  | some c =>
    let c₂ := { c with records := c.records.map (fun d => { d with fields := addDefaultFields columns d.fields }) }
    let c₃ := columns.foldl (fun acc col => if col.isIndexed then ensureIndex acc col.name else acc) c₂
    (Except.ok (), { e with loki := setCollection e.loki table c₃ })

/-- `_executeCreateTableMigration({name, columns})`. -/
def executeCreateTableMigration (e : Executor) (name : String) (columns : List ColumnSchema) :
    Executor :=
  addTableCollection e ⟨name, columns⟩

/-- One iteration of the `_migrate` step loop; an unknown tag throws
`Unsupported migration step`. -/
def executeMigrationStep (e : Executor) : MigrationStep → Except String Unit × Executor
  | .createTable name columns => (Except.ok (), executeCreateTableMigration e name columns)
  | .addColumns table columns => executeAddColumnsMigration e table columns
  | .unknown tag => (Except.error ("Unsupported migration step " ++ tag), e)

/-- The `steps.forEach` loop of `_migrate`: a throw aborts the remaining
steps, keeping the mutations already made. -/
def runMigrationSteps : Executor → List MigrationStep → Except String Unit × Executor
  | e, [] => (Except.ok (), e)
  | e, s :: rest =>
    match executeMigrationStep e s with
    | (Except.ok _, e₂) => runMigrationSteps e₂ rest
    | (Except.error msg, e₂) => (Except.error msg, e₂)

/-- `_migrate(steps)`: run all steps, then — only after every step succeeded —
advance the version marker to the schema version. -/
def migrate (e : Executor) (steps : List MigrationStep) : Except String Unit × Executor :=
  match runMigrationSteps e steps with
  | (Except.ok _, e₂) => setDatabaseVersion e₂ e₂.schema.version
  | (Except.error msg, e₂) => (Except.error msg, e₂)

/-- Modelled from the spec: `stepsForMigration` (Schema/migrations/helpers) is
not under `src/`; per spec §4.2 and §9 it is a lookup-by-exact-range among the
declared migrations, `NotAvailable` (`none`) on gaps or no declaration. -/
def stepsForMigration (migrations : SchemaMigrations) (fromVersion toVersion : Nat) :
    Option (List MigrationStep) :=
  (migrations.find? (fun m => m.fromVersion == fromVersion && m.toVersion == toVersion)).map
    (fun m => m.steps)

/-- `_getMigrationSteps(fromVersion)`: `null` without declared migrations. -/
def getMigrationSteps (e : Executor) (fromVersion : Nat) : Option (List MigrationStep) :=
  match e.migrations with
  | none => none
  | some ms => stepsForMigration ms fromVersion e.schema.version

/-- `_migrateIfNeeded`: the migration decision procedure (spec §4.4):
same version → no-op; version 0 → full reset; older → migrate when steps are
available, else reset; newer → reset. -/
def migrateIfNeeded (e : Executor) : Except String Unit × Executor :=
  let dbVersion := databaseVersion e
  let schemaVersion := e.schema.version
  if dbVersion = schemaVersion then (Except.ok (), e)
  else if dbVersion = 0 then resetDatabase e
  else if dbVersion < schemaVersion then
    match getMigrationSteps e dbVersion with
    | some steps => migrate e steps
    | none => resetDatabase e
  else resetDatabase e

/-- `setUp()`: open the database (the given `loki` state is the loaded
content), then reconcile versions. -/
def setUp (e : Executor) : Except String Unit × Executor :=
  migrateIfNeeded e

/-- Store-level point lookup through the executor (helper for stating claims). -/
def lookupRecord (e : Executor) (table recordId : String) : Option LokiDoc :=
  match getCollection e.loki table with
  | none => none
  | some c => byId c recordId

-- ## Concrete fixtures (used by witnesses and counterexamples)

def tasksTS : TableSchema := ⟨"tasks", [⟨"name", false, false⟩]⟩

def schemaTasks : AppSchema := ⟨1, [tasksTS]⟩

/-- A freshly constructed executor over an uninitialized (empty) database. -/
def exec0 : Executor := ⟨schemaTasks, none, emptyLoki, []⟩

/-- After a full reset: `tasks` and `local_storage` collections, version 1. -/
def exec1 : Executor := (resetDatabase exec0).2

def rawA : RawRecord := ⟨"r1", "created", [("name", Value.str "A")]⟩

/-- After `create("tasks", rawA)`: the record is stored and cached. -/
def exec2 : Executor := (create exec1 "tasks" rawA).2

/-- After `destroyDeletedRecords("tasks", ["r1"])`: the record is gone from
the store but `r1` is still cached. -/
def exec3 : Executor := (destroyDeletedRecords exec2 "tasks" ["r1"]).2

/-- A database persisted at schema version 5, opened by an app whose schema
expects version 9. -/
def lokiV5 : Loki :=
  ⟨[("local_storage",
     ⟨[⟨1, [("key", Value.str "_loki_schema_version"), ("value", Value.str "5")]⟩], 1, ["key"], []⟩),
    ("tasks", emptyCollection ["id"] ["_status"])]⟩

def schemaV9 : AppSchema := ⟨9, [tasksTS]⟩

def execV5 : Executor := ⟨schemaV9, none, lokiV5, []⟩

/-- A migration whose second step has an unknown tag, and whose first step
rewrites the reserved `local_storage` collection's `value` fields. -/
def badSteps : List MigrationStep :=
  [MigrationStep.addColumns "local_storage" [⟨"value", false, false⟩],
   MigrationStep.unknown "rename_column"]

/-- Benign steps ending in an unknown tag (no step touches `local_storage`). -/
def benignBadSteps : List MigrationStep :=
  [MigrationStep.createTable "projects" [⟨"title", false, false⟩],
   MigrationStep.unknown "rename_column"]

/-- An executor whose stored version marker is unparsable garbage. -/
def execJunkVersion : Executor :=
  ⟨schemaTasks, none,
   ⟨[("local_storage",
      ⟨[⟨1, [("key", Value.str "_loki_schema_version"), ("value", Value.str "junk")]⟩], 1, ["key"], []⟩)]⟩,
   []⟩

/-- A store holding one `tasks` record that is not yet cached (e.g. after a
process restart). -/
def taskDoc : LokiDoc :=
  ⟨1, [("id", Value.str "r1"), ("_status", Value.str "created"), ("name", Value.str "A")]⟩

def execFind : Executor :=
  ⟨schemaTasks, none, ⟨[("tasks", ⟨[taskDoc], 1, ["id"], ["_status"]⟩)]⟩, []⟩

def rawB : RawRecord := ⟨"r1", "updated", [("name", Value.str "B")]⟩

/-- The batch of claim C6: create, update, destroy of the same record. -/
def c6Operations (t : String) (a b : RawRecord) : List WorkerBatchOperation :=
  [WorkerBatchOperation.create t a, WorkerBatchOperation.update t b,
   WorkerBatchOperation.destroyPermanently t b]

/-- Fixture for C8: two records and two new columns, one of them indexed. -/
def c8Collection : LokiCollection :=
  ⟨[taskDoc, ⟨2, [("id", Value.str "r2"), ("_status", Value.str "synced"), ("name", Value.str "B")]⟩],
   2, ["id"], ["_status"]⟩

def c8Exec : Executor :=
  ⟨schemaTasks, none, ⟨[("tasks", c8Collection)]⟩, []⟩

def c8Columns : List ColumnSchema := [⟨"due", true, false⟩, ⟨"note", false, false⟩]

-- ## Association-list lemmas

theorem alGet_alSet {α : Type} (m : List (String × α)) (k : String) (v : α) (q : String) :
    alGet (alSet m k v) q = if k = q then some v else alGet m q := by
  induction m with
  | nil => by_cases h : k = q <;> simp [alSet, alGet, h]
  | cons p rest ih =>
    obtain ⟨kp, vp⟩ := p
    by_cases h : kp = k
    · subst h
      by_cases hq : kp = q <;> simp [alSet, alGet, hq]
    · by_cases hq : kp = q
      · subst hq
        have hk : ¬k = kp := fun hc => h hc.symm
        simp [alSet, alGet, h, hk]
      · simp [alSet, alGet, h, hq, ih]

theorem alGet_append {α : Type} (l₁ l₂ : List (String × α)) (q : String) :
    alGet (l₁ ++ l₂) q = (alGet l₁ q).or (alGet l₂ q) := by
  induction l₁ with
  | nil => simp [alGet]
  | cons p rest ih =>
    obtain ⟨kp, vp⟩ := p
    by_cases h : kp = q <;> simp [alGet, h, ih]

theorem alSet_self {α : Type} (m : List (String × α)) (k : String) (v : α)
    (h : alGet m k = some v) : alSet m k v = m := by
  induction m with
  | nil => simp [alGet] at h
  | cons p rest ih =>
    obtain ⟨kp, vp⟩ := p
    by_cases hk : kp = k
    · subst hk
      simp [alGet] at h
      simp [alSet, h]
    · simp [alGet, hk] at h
      simp [alSet, hk, ih h]

theorem map_eq_self_of {α : Type} (l : List α) (f : α → α) (h : ∀ a ∈ l, f a = a) :
    l.map f = l := by
  induction l with
  | nil => rfl
  | cons a rest ih =>
    simp only [List.map_cons, h a (List.mem_cons_self a rest)]
    rw [ih (fun b hb => h b (List.mem_cons_of_mem a hb))]

theorem takeWhile_eq_self_of {α : Type} (l : List α) (p : α → Bool)
    (h : ∀ c ∈ l, p c = true) : l.takeWhile p = l := by
  induction l with
  | nil => rfl
  | cons a rest ih =>
    rw [List.takeWhile_cons, h a (List.mem_cons_self a rest)]
    simp [ih (fun b hb => h b (List.mem_cons_of_mem a hb))]

/-- Replacing (by `$loki` id) the document that a `find?` scan returns, with a
new document that still satisfies the scan predicate, makes the scan return
the new document. -/
theorem find?_map_replace (p : LokiDoc → Bool) (l : List LokiDoc) (d dNew : LokiDoc)
    (hf : l.find? p = some d) (hp : p dNew = true) :
    (l.map (fun r => if r.lokiId = d.lokiId then dNew else r)).find? p = some dNew := by
  induction l with
  | nil => simp at hf
  | cons r rs ih =>
    cases hr : p r with
    | true =>
      rw [List.find?_cons_of_pos _ hr] at hf
      injection hf with hrd
      subst hrd
      simp only [List.map_cons, if_pos rfl]
      exact List.find?_cons_of_pos _ hp
    | false =>
      have hr' : ¬p r = true := by simp [hr]
      rw [List.find?_cons_of_neg _ hr'] at hf
      by_cases hid : r.lokiId = d.lokiId
      · simp only [List.map_cons, if_pos hid]
        exact List.find?_cons_of_pos _ hp
      · simp only [List.map_cons, if_neg hid]
        rw [List.find?_cons_of_neg _ hr']
        exact ih hf

-- ## Cache lemmas

theorem isCached_markAsCached_self (e : Executor) (t x : String) :
    isCached (markAsCached e t x) t x = true := by
  unfold markAsCached isCached
  cases h : alGet e.cachedRecords t with
  | some s =>
    simp only [alGet_alSet, if_pos rfl]
    by_cases hc : x ∈ s
    · simp [hc]
    · simp [hc]
  | none =>
    simp only [alGet_append, h, Option.or]
    simp [alGet]

theorem isCached_removeFromCache_self (e : Executor) (t x : String) :
    isCached (removeFromCache e t x) t x = false := by
  unfold removeFromCache isCached
  cases h : alGet e.cachedRecords t with
  | some s =>
    simp only [alGet_alSet, if_pos rfl]
    simp [List.contains_eq_any_beq, List.any_filter]
  | none => simp [h]

theorem isCached_eq_of_cache_eq (e₁ e₂ : Executor) (t x : String)
    (h : e₁.cachedRecords = e₂.cachedRecords) : isCached e₁ t x = isCached e₂ t x := by
  simp [isCached, h]

theorem find_cached (e : Executor) (t x : String) (h : isCached e t x = true) :
    find e t x = (Except.ok (CachedFindResult.id x), e) := by
  simp [find, h]

/-- When the id is not cached, `find` can never hand back a bare identity: it
returns absent, a full record or an error. -/
theorem find_not_cached_ne_id (e : Executor) (t x : String)
    (h : isCached e t x = false) (r : CachedFindResult)
    (hr : (find e t x).1 = Except.ok r) : r ≠ CachedFindResult.id x := by
  unfold find at hr
  rw [h] at hr
  simp only [Bool.false_eq_true, if_false] at hr
  cases hc : getCollection e.loki t with
  | none => rw [hc] at hr; simp at hr
  | some c =>
    rw [hc] at hr
    dsimp only at hr
    cases hb : byId c x with
    | none =>
      rw [hb] at hr
      simp at hr
      subst hr
      intro hcontra
      cases hcontra
    | some d =>
      rw [hb] at hr
      dsimp only at hr
      cases hts : schemaTable e.schema t with
      | none => rw [hts] at hr; simp at hr
      | some ts =>
        rw [hts] at hr
        simp at hr
        subst hr
        intro hcontra
        cases hcontra

-- ## Decimal printing / parsing lemmas

theorem natDecimalChars_zero (fuel : Nat) (acc : List Char) :
    natDecimalChars fuel 0 acc = acc := by
  cases fuel <;> simp [natDecimalChars]

theorem digitChar_props (m : Nat) (h : m < 10) :
    (Nat.digitChar m).isDigit = true ∧ (Nat.digitChar m).toNat - 48 = m := by
  interval_cases m <;> exact ⟨by decide, by decide⟩

theorem natDecimalChars_spec :
    ∀ fuel n acc, n ≤ fuel → n ≠ 0 →
      ∃ ds, natDecimalChars fuel n acc = ds ++ acc ∧ ds ≠ [] ∧
        (∀ c ∈ ds, c.isDigit = true) ∧
        ∀ v, List.foldl parseStep v ds = v * 10 ^ ds.length + n := by
  intro fuel
  induction fuel with
  | zero => intro n acc hle hne; omega
  | succ fuel ih =>
    intro n acc hle hne
    have hmod : n % 10 < 10 := Nat.mod_lt n (by decide)
    simp only [natDecimalChars, if_neg hne]
    by_cases h10 : n / 10 = 0
    · have hn10 : n = n % 10 := by
        have := Nat.div_add_mod n 10
        omega
      refine ⟨[Nat.digitChar (n % 10)], ?_, by simp, ?_, ?_⟩
      · rw [h10, natDecimalChars_zero]
        simp
      · intro c hcmem
        simp at hcmem
        subst hcmem
        exact (digitChar_props (n % 10) hmod).1
      · intro v
        simp only [List.foldl_cons, List.foldl_nil, parseStep,
          (digitChar_props (n % 10) hmod).2, List.length_singleton, pow_one]
        omega
    · have hlt : n / 10 < n := Nat.div_lt_self (Nat.pos_of_ne_zero hne) (by decide)
      have hle' : n / 10 ≤ fuel := by omega
      obtain ⟨ds', heq, hne', hdig, hfold⟩ :=
        ih (n / 10) (Nat.digitChar (n % 10) :: acc) hle' h10
      refine ⟨ds' ++ [Nat.digitChar (n % 10)], ?_, by simp, ?_, ?_⟩
      · rw [heq]
        simp
      · intro c hcmem
        rcases List.mem_append.mp hcmem with hmem | hmem
        · exact hdig c hmem
        · simp at hmem
          subst hmem
          exact (digitChar_props _ hmod).1
      · intro v
        rw [List.foldl_append, hfold v]
        simp only [List.foldl_cons, List.foldl_nil, parseStep,
          (digitChar_props (n % 10) hmod).2, List.length_append, List.length_singleton]
        have hdm : 10 * (n / 10) + n % 10 = n := Nat.div_add_mod n 10
        calc 10 * (v * 10 ^ ds'.length + n / 10) + n % 10
            = v * (10 ^ ds'.length * 10) + (10 * (n / 10) + n % 10) := by ring
          _ = v * 10 ^ (ds'.length + 1) + n := by rw [hdm, pow_succ]

/-- The schema-version marker round-trips through the decimal string
representation and the `parseInt` model. -/
theorem jsParseInt_jsNatToString (n : Nat) : jsParseInt10 (jsNatToString n) = some n := by
  by_cases h : n = 0
  · subst h
    decide
  · obtain ⟨ds, heq, hne, hdig, hfold⟩ := natDecimalChars_spec (n + 1) n [] (by omega) h
    rw [List.append_nil] at heq
    unfold jsNatToString
    rw [if_neg h]
    unfold jsParseInt10
    have hdata : (String.mk (natDecimalChars (n + 1) n [])).data = natDecimalChars (n + 1) n [] := rfl
    rw [hdata, heq, takeWhile_eq_self_of ds _ hdig]
    have hnotempty : ds.isEmpty = false := by
      cases ds with
      | nil => exact absurd rfl hne
      | cons a l => rfl
    dsimp only
    rw [hnotempty]
    simp only [Bool.false_eq_true, if_false, hfold 0, zero_mul, zero_add]

-- ## Version-marker lemmas

theorem getField_setField (fs : Fields) (k : String) (x : Value) (q : String) :
    getField (setField fs k x) q = if k = q then some x else getField fs q :=
  alGet_alSet fs k x q

theorem docHasKey_setField_value (d : LokiDoc) (key : String) (x : Value) :
    docHasKey { d with fields := setField d.fields "value" x } key = docHasKey d key := by
  unfold docHasKey
  have : getField (setField d.fields "value" x) "key" = getField d.fields "key" := by
    rw [getField_setField, if_neg (by decide)]
  rw [this]

/-- After a successful `setVersion(v)`, reading the marker parses back `v`. -/
theorem databaseVersion_after_set (e : Executor) (v : Nat)
    (h : (setDatabaseVersion e v).1 = Except.ok ()) :
    databaseVersion (setDatabaseVersion e v).2 = v := by
  unfold setDatabaseVersion setLocal at h ⊢
  cases hf : findLocal e schemaVersionKey with
  | some d =>
    rw [hf] at h
    dsimp only at h ⊢
    cases hc : getCollection e.loki "local_storage" with
    | none =>
      unfold findLocal at hf
      rw [hc] at hf
      cases hf
    | some c =>
      rw [hc] at h
      dsimp only at h ⊢
      have hfind : c.records.find? (fun r => docHasKey r schemaVersionKey) = some d := by
        unfold findLocal at hf
        rw [hc] at hf
        exact hf
      have hpd₂ : docHasKey
          { d with fields := setField d.fields "value" (Value.str (jsNatToString v)) }
          schemaVersionKey = true := by
        rw [docHasKey_setField_value]
        have h₁ := List.find?_some (p := fun r => docHasKey r schemaVersionKey) hfind
        simpa using h₁
      unfold databaseVersion getLocal findLocal getCollection setCollection
      dsimp only
      rw [alGet_alSet, if_pos rfl]
      dsimp only
      rw [find?_map_replace _ _ _ _ hfind hpd₂]
      dsimp only
      rw [getField_setField, if_pos rfl]
      simp [jsParseInt_jsNatToString]
  | none =>
    rw [hf] at h
    dsimp only at h ⊢
    cases hc : getCollection e.loki "local_storage" with
    | none =>
      rw [hc] at h
      dsimp only at h
      simp at h
    | some c =>
      rw [hc] at h
      dsimp only at h
      have hnone : c.records.find? (fun r => docHasKey r schemaVersionKey) = none := by
        unfold findLocal at hf
        rw [hc] at hf
        exact hf
      unfold databaseVersion getLocal findLocal getCollection setCollection
      dsimp only
      rw [alGet_alSet, if_pos rfl]
      dsimp only
      rw [List.find?_append, hnone]
      have hdoc : List.find? (fun r => docHasKey r schemaVersionKey)
          [(⟨c.maxId + 1, [("key", Value.str schemaVersionKey),
            ("value", Value.str (jsNatToString v))]⟩ : LokiDoc)] =
          some ⟨c.maxId + 1, [("key", Value.str schemaVersionKey),
            ("value", Value.str (jsNatToString v))]⟩ := by
        apply List.find?_cons_of_pos
        unfold docHasKey getField alGet
        simp
      rw [Option.none_or, hdoc]
      simp [getField, alGet, jsParseInt_jsNatToString]

-- ## Preservation lemmas

theorem schema_foldl_addTableCollection (l : List TableSchema) :
    ∀ e : Executor, (l.foldl addTableCollection e).schema = e.schema := by
  induction l with
  | nil => intro e; rfl
  | cons ts rest ih =>
    intro e
    rw [List.foldl_cons, ih]
    rfl

theorem schema_setLocal (e : Executor) (k v : String) :
    (setLocal e k v).2.schema = e.schema := by
  unfold setLocal
  cases findLocal e k <;> cases getCollection e.loki "local_storage" <;> rfl

theorem schema_setUpSchema (e : Executor) : (setUpSchema e).2.schema = e.schema := by
  unfold setUpSchema setDatabaseVersion
  dsimp only
  rw [schema_setLocal]
  dsimp only
  rw [schema_foldl_addTableCollection]

theorem schema_executeMigrationStep (e : Executor) (s : MigrationStep) :
    (executeMigrationStep e s).2.schema = e.schema := by
  cases s with
  | createTable n cols => rfl
  | addColumns t cols =>
    unfold executeMigrationStep executeAddColumnsMigration
    dsimp only
    cases getCollection e.loki t <;> rfl
  | unknown tag => rfl

theorem schema_runMigrationSteps (steps : List MigrationStep) :
    ∀ e : Executor, (runMigrationSteps e steps).2.schema = e.schema := by
  induction steps with
  | nil => intro e; rfl
  | cons s rest ih =>
    intro e
    unfold runMigrationSteps
    have hpres := schema_executeMigrationStep e s
    cases hs : executeMigrationStep e s with
    | mk r e₂ =>
      rw [hs] at hpres
      cases r with
      | ok u =>
        dsimp only
        rw [ih e₂]
        exact hpres
      | error m =>
        dsimp only
        exact hpres

theorem cachedRecords_destroyDeletedRecords (e : Executor) (t : String) (ids : List String) :
    (destroyDeletedRecords e t ids).2.cachedRecords = e.cachedRecords := by
  unfold destroyDeletedRecords
  cases getCollection e.loki t <;> rfl

-- ## Version after setup / reset / migrate

theorem databaseVersion_setUpSchema (e : Executor) (h : (setUpSchema e).1 = Except.ok ()) :
    databaseVersion (setUpSchema e).2 = e.schema.version := by
  unfold setUpSchema at h ⊢
  rw [databaseVersion_after_set _ _ h]
  exact congrArg AppSchema.version (schema_foldl_addTableCollection e.schema.tables e)

theorem databaseVersion_resetDatabase (e : Executor) (h : (resetDatabase e).1 = Except.ok ()) :
    databaseVersion (resetDatabase e).2 = e.schema.version := by
  unfold resetDatabase at h ⊢
  exact databaseVersion_setUpSchema _ h

theorem databaseVersion_migrate (e : Executor) (steps : List MigrationStep)
    (h : (migrate e steps).1 = Except.ok ()) :
    databaseVersion (migrate e steps).2 = e.schema.version := by
  unfold migrate at h ⊢
  have hpres := schema_runMigrationSteps steps e
  cases hrun : runMigrationSteps e steps with
  | mk r e₂ =>
    rw [hrun] at h hpres
    cases r with
    | ok u =>
      dsimp only at h ⊢
      rw [databaseVersion_after_set _ _ h]
      exact congrArg AppSchema.version hpres
    | error m =>
      dsimp only at h
      simp at h

-- ## Claim theorems

/-- C9: schema-version marker round-trip: for every non-negative integer `v`,
after a successful `setVersion(v)` (the decimal string written under the
reserved key) a subsequent `currentVersion()` returns `v`; when the reserved
key is absent, or its stored value is unparsable as a decimal integer,
`currentVersion()` returns 0 — and it is total, so it never raises. -/
theorem S2P_C9_version_marker_roundtrip (e : Executor) (v : Nat) :
    ((setDatabaseVersion e v).1 = Except.ok () →
      databaseVersion (setDatabaseVersion e v).2 = v) ∧
    (getLocal e schemaVersionKey = none → databaseVersion e = 0) ∧
    (∀ s, getLocal e schemaVersionKey = some s → jsParseInt10 s = none →
      databaseVersion e = 0) := by
  refine ⟨fun h => databaseVersion_after_set e v h, fun h => ?_, fun s hs hp => ?_⟩
  · unfold databaseVersion
    rw [h]
    rfl
  · unfold databaseVersion
    rw [hs]
    simp only [Option.getD_some]
    rw [hp]
    rfl

/-- C9 witness: round-trip at version 42; version 0 on an uninitialized
database and on a stored value of `"junk"`. -/
theorem S2P_C9_witness :
    databaseVersion (setDatabaseVersion execV5 42).2 = 42 ∧
    databaseVersion exec0 = 0 ∧
    databaseVersion execJunkVersion = 0 :=
  ⟨(S2P_C9_version_marker_roundtrip execV5 42).1 (by decide),
   (S2P_C9_version_marker_roundtrip exec0 42).2.1 (by decide),
   (S2P_C9_version_marker_roundtrip execJunkVersion 42).2.2 "junk" (by decide) (by decide)⟩

/-- C3: `destroyDeletedRecords` removes records from the store but does not
evict their ids from the record cache: the cache is untouched, so any id
cached before the call is still cached afterwards and a subsequent `find`
short-circuits to the bare identity. -/
theorem S2P_C3_destroyDeleted_keeps_cache (e : Executor) (t : String) (ids : List String) :
    (destroyDeletedRecords e t ids).2.cachedRecords = e.cachedRecords ∧
    ∀ x, isCached e t x = true →
      isCached (destroyDeletedRecords e t ids).2 t x = true ∧
      find (destroyDeletedRecords e t ids).2 t x =
        (Except.ok (CachedFindResult.id x), (destroyDeletedRecords e t ids).2) := by
  have hc := cachedRecords_destroyDeletedRecords e t ids
  refine ⟨hc, fun x hx => ?_⟩
  have hcached : isCached (destroyDeletedRecords e t ids).2 t x = true := by
    rw [isCached_eq_of_cache_eq _ e _ _ hc]
    exact hx
  exact ⟨hcached, find_cached _ _ _ hcached⟩

/-- C3 witness: after creating `r1` (which caches it) and then removing it
with `destroyDeletedRecords`, the id is still cached, no record with that id
exists in the store, and `find` returns the bare identity. -/
theorem S2P_C3_witness :
    (destroyDeletedRecords exec2 "tasks" ["r1"]).2.cachedRecords = exec2.cachedRecords ∧
    isCached exec3 "tasks" "r1" = true ∧
    find exec3 "tasks" "r1" = (Except.ok (CachedFindResult.id "r1"), exec3) ∧
    lookupRecord exec3 "tasks" "r1" = none :=
  ⟨(S2P_C3_destroyDeleted_keeps_cache exec2 "tasks" ["r1"]).1,
   ((S2P_C3_destroyDeleted_keeps_cache exec2 "tasks" ["r1"]).2 "r1" (by decide)).1,
   ((S2P_C3_destroyDeleted_keeps_cache exec2 "tasks" ["r1"]).2 "r1" (by decide)).2,
   by decide⟩

/-- C7: an absent record on the optional-read paths is never an error: `find`
returns absent with no state change, `markAsDeleted` is an exact no-op on
store and cache, and `destroyDeletedRecords` silently skips every id that has
no record. -/
theorem S2P_C7_absent_is_no_error (e : Executor) (t x : String) (c : LokiCollection)
    (hc : getCollection e.loki t = some c)
    (habs : byId c x = none)
    (hcache : isCached e t x = false) :
    find e t x = (Except.ok CachedFindResult.absent, e) ∧
    markAsDeleted e t x = (Except.ok (), e) ∧
    ∀ ids : List String, (∀ i ∈ ids, byId c i = none) →
      destroyDeletedRecords e t ids = (Except.ok (), e) := by
  refine ⟨?_, ?_, ?_⟩
  · simp only [find, hcache, Bool.false_eq_true, if_false, hc, habs]
  · simp only [markAsDeleted, hc, habs]
  · intro ids hids
    have hrem : ∀ ids₂ : List String, (∀ i ∈ ids₂, byId c i = none) →
        removeDeletedIds c ids₂ = c := by
      intro ids₂
      induction ids₂ with
      | nil => intro _; rfl
      | cons i rest ih =>
        intro hall
        unfold removeDeletedIds
        rw [hall i (List.mem_cons_self i rest)]
        exact ih (fun j hj => hall j (List.mem_cons_of_mem i hj))
    have hself : setCollection e.loki t c = e.loki := by
      unfold setCollection
      rw [alSet_self e.loki.collections t c hc]
    unfold destroyDeletedRecords
    rw [hc]
    dsimp only
    rw [hrem ids hids, hself]

/-- C7 witness: on the freshly reset database, `find`, `markAsDeleted` and
`destroyDeletedRecords` for the absent id `nope` are all errorless no-ops. -/
theorem S2P_C7_witness :
    find exec1 "tasks" "nope" = (Except.ok CachedFindResult.absent, exec1) ∧
    markAsDeleted exec1 "tasks" "nope" = (Except.ok (), exec1) ∧
    destroyDeletedRecords exec1 "tasks" ["nope"] = (Except.ok (), exec1) :=
  have h := S2P_C7_absent_is_no_error exec1 "tasks" "nope" ⟨[], 0, ["id"], ["_status"]⟩
    (by decide) (by decide) (by decide)
  ⟨h.1, h.2.1, h.2.2 ["nope"] (by decide)⟩

theorem docHasId_rawToFields (n : Nat) (raw : RawRecord) :
    docHasId ⟨n, rawToFields raw⟩ raw.id = true := by
  simp [docHasId, rawToFields, getField, alGet]

/-- C10: `update` requires the record to exist: with a matching record it
succeeds by resolving the store's internal `$loki` identity and rewriting the
record in place (cache untouched); with no matching record the lookup yields
nothing and `update` fails with an error, leaving store and cache unchanged
(it neither inserts nor no-ops). -/
theorem S2P_C10_update_requires_existing (e : Executor) (t : String) (raw : RawRecord)
    (c : LokiCollection) (hc : getCollection e.loki t = some c) :
    (∀ d, byId c raw.id = some d →
      (update e t raw).1 = Except.ok () ∧
      (update e t raw).2.cachedRecords = e.cachedRecords ∧
      ∃ c₂, getCollection (update e t raw).2.loki t = some c₂ ∧
        byId c₂ raw.id = some ⟨d.lokiId, rawToFields raw⟩) ∧
    (byId c raw.id = none → update e t raw = (Except.error "record not found", e)) := by
  constructor
  · intro d hd
    unfold update
    rw [hc]
    dsimp only
    rw [hd]
    dsimp only
    refine ⟨rfl, rfl,
      ⟨{ c with records := c.records.map (fun r =>
          if r.lokiId = d.lokiId then ⟨d.lokiId, rawToFields raw⟩ else r) }, ?_, ?_⟩⟩
    · unfold getCollection setCollection
      dsimp only
      rw [alGet_alSet, if_pos rfl]
    · exact find?_map_replace _ _ _ _ hd (docHasId_rawToFields d.lokiId raw)
  · intro hnone
    unfold update
    rw [hc]
    dsimp only
    rw [hnone]

/-- C10 witness: updating the existing `r1` succeeds and rewrites it in place;
updating the absent `zz` fails with an error and leaves the state unchanged. -/
theorem S2P_C10_witness :
    (update execFind "tasks" rawB).1 = Except.ok () ∧
    (update execFind "tasks" rawB).2.cachedRecords = execFind.cachedRecords ∧
    (∃ c₂, getCollection (update execFind "tasks" rawB).2.loki "tasks" = some c₂ ∧
      byId c₂ rawB.id = some ⟨1, rawToFields rawB⟩) ∧
    update execFind "tasks" ⟨"zz", "created", []⟩ =
      (Except.error "record not found", execFind) :=
  have hbase := S2P_C10_update_requires_existing execFind "tasks" rawB
    ⟨[taskDoc], 1, ["id"], ["_status"]⟩ (by decide)
  have h₁ := hbase.1 taskDoc (by decide)
  have hmiss := S2P_C10_update_requires_existing execFind "tasks" ⟨"zz", "created", []⟩
    ⟨[taskDoc], 1, ["id"], ["_status"]⟩ (by decide)
  ⟨h₁.1, h₁.2.1, h₁.2.2, hmiss.2 (by decide)⟩

/-- C4: idempotent caching on `find`: for an uncached id whose record exists
in the store, the first `find` returns the full sanitized record and marks the
id cached, and a second `find` (no intervening mutation) returns only the bare
identity without touching the state — it is answered from the cache alone. -/
theorem S2P_C4_find_idempotent_caching (e : Executor) (t x : String)
    (c : LokiCollection) (d : LokiDoc) (ts : TableSchema)
    (hcache : isCached e t x = false)
    (hc : getCollection e.loki t = some c)
    (hd : byId c x = some d)
    (hts : schemaTable e.schema t = some ts) :
    (find e t x).1 = Except.ok (CachedFindResult.record (sanitizedRaw d.fields ts)) ∧
    isCached (find e t x).2 t x = true ∧
    find (find e t x).2 t x = (Except.ok (CachedFindResult.id x), (find e t x).2) := by
  have hfind : find e t x =
      (Except.ok (CachedFindResult.record (sanitizedRaw d.fields ts)), markAsCached e t x) := by
    unfold find
    simp only [hcache, Bool.false_eq_true, if_false, hc, hd, hts]
  rw [hfind]
  have hcached := isCached_markAsCached_self e t x
  exact ⟨rfl, hcached, find_cached _ _ _ hcached⟩

/-- C4 witness: on a store holding `r1` uncached (fresh process), the first
`find` returns the sanitized record, the second returns the bare identity. -/
theorem S2P_C4_witness :
    (find execFind "tasks" "r1").1 =
      Except.ok (CachedFindResult.record (sanitizedRaw taskDoc.fields tasksTS)) ∧
    isCached (find execFind "tasks" "r1").2 "tasks" "r1" = true ∧
    find (find execFind "tasks" "r1").2 "tasks" "r1" =
      (Except.ok (CachedFindResult.id "r1"), (find execFind "tasks" "r1").2) :=
  S2P_C4_find_idempotent_caching execFind "tasks" "r1" ⟨[taskDoc], 1, ["id"], ["_status"]⟩
    taskDoc tasksTS (by decide) (by decide) (by decide) (by decide)

/-- C1 counterexample: in the reachable state `exec3` (create `r1`, then
`destroyDeletedRecords(["r1"])`, which removes the record but leaves the cache
untouched), `markAsDeleted("tasks", "r1")` succeeds as a guarded no-op — the
record is absent, so the cache eviction is skipped — and the subsequent `find`
returns the bare identity `r1`, contradicting the claim. -/
theorem S2P_C1_counterexample :
    (markAsDeleted exec3 "tasks" "r1").1 = Except.ok () ∧
    lookupRecord exec3 "tasks" "r1" = none ∧
    (find (markAsDeleted exec3 "tasks" "r1").2 "tasks" "r1").1 =
      Except.ok (CachedFindResult.id "r1") := by
  decide

/-- C1 (amended): after `destroyPermanently(t, x)`, and after
`markAsDeleted(t, x)` whenever a record with id `x` exists in the store at the
time of the call, a subsequent `find(t, x)` never returns the bare identity
`x` — it returns absent, a full sanitized record, or an error. -/
theorem S2P_C1_cache_eviction (e : Executor) (t x : String) :
    ((destroyPermanently e t x).1 = Except.ok () →
      ∀ r, (find (destroyPermanently e t x).2 t x).1 = Except.ok r →
        r ≠ CachedFindResult.id x) ∧
    (∀ c d, getCollection e.loki t = some c → byId c x = some d →
      ∀ r, (find (markAsDeleted e t x).2 t x).1 = Except.ok r →
        r ≠ CachedFindResult.id x) := by
  constructor
  · intro hok r hr
    unfold destroyPermanently at hok hr
    cases hc : getCollection e.loki t with
    | none =>
      rw [hc] at hok
      simp at hok
    | some c =>
      rw [hc] at hr
      dsimp only at hr
      exact find_not_cached_ne_id _ _ _ (isCached_removeFromCache_self _ _ _) r hr
  · intro c d hc hd r hr
    unfold markAsDeleted at hr
    rw [hc] at hr
    dsimp only at hr
    rw [hd] at hr
    dsimp only at hr
    exact find_not_cached_ne_id _ _ _ (isCached_removeFromCache_self _ _ _) r hr

/-- C1 witness for the amended claim at state `exec2`, where `r1` exists in
the store and is cached: after `destroyPermanently` the subsequent `find`
returns absent (not the bare identity), and after `markAsDeleted` it returns
the full sanitized soft-deleted record (not the bare identity). -/
theorem S2P_C1_witness :
    CachedFindResult.absent ≠ CachedFindResult.id "r1" ∧
    CachedFindResult.record
        (sanitizedRaw (setField (rawToFields rawA) "_status" (Value.str "deleted")) tasksTS) ≠
      CachedFindResult.id "r1" :=
  ⟨(S2P_C1_cache_eviction exec2 "tasks" "r1").1 (by decide) CachedFindResult.absent (by decide),
   (S2P_C1_cache_eviction exec2 "tasks" "r1").2
     ⟨[⟨1, rawToFields rawA⟩], 1, ["id"], ["_status"]⟩ ⟨1, rawToFields rawA⟩
     (by decide) (by decide)
     (CachedFindResult.record
       (sanitizedRaw (setField (rawToFields rawA) "_status" (Value.str "deleted")) tasksTS))
     (by decide)⟩

/-- C5: version marker after successful setup: whichever branch of the
migration decision procedure ran (no-op, migration, or full reset), after a
successful `setup()` the persisted schema-version marker read by
`currentVersion()` equals the schema version the executor was constructed
with. -/
theorem S2P_C5_setup_version (e : Executor) (h : (setUp e).1 = Except.ok ()) :
    databaseVersion (setUp e).2 = e.schema.version := by
  unfold setUp migrateIfNeeded at h ⊢
  by_cases h1 : databaseVersion e = e.schema.version
  · rw [if_pos h1] at h ⊢
    exact h1
  · rw [if_neg h1] at h ⊢
    by_cases h2 : databaseVersion e = 0
    · rw [if_pos h2] at h ⊢
      exact databaseVersion_resetDatabase e h
    · rw [if_neg h2] at h ⊢
      by_cases h3 : databaseVersion e < e.schema.version
      · rw [if_pos h3] at h ⊢
        cases hms : getMigrationSteps e (databaseVersion e) with
        | some steps =>
          rw [hms] at h
          dsimp only at h ⊢
          exact databaseVersion_migrate e steps h
        | none =>
          rw [hms] at h
          dsimp only at h ⊢
          exact databaseVersion_resetDatabase e h
      · rw [if_neg h3] at h ⊢
        exact databaseVersion_resetDatabase e h

/-- C5 witness: setting up an uninitialized database (version 0, full-reset
branch) succeeds and leaves the marker at the schema version. -/
theorem S2P_C5_witness : databaseVersion (setUp exec0).2 = exec0.schema.version :=
  S2P_C5_setup_version exec0 (by decide)

-- ## Marker preservation under migration steps (for C2)

theorem databaseVersion_eq_of_localStorage_eq (e₁ e₂ : Executor)
    (h : getCollection e₁.loki "local_storage" = getCollection e₂.loki "local_storage") :
    databaseVersion e₁ = databaseVersion e₂ := by
  unfold databaseVersion getLocal findLocal
  rw [h]

/-- Appending a fresh collection never changes what the version marker reads
(`getCollection` returns the first entry with a name; a fresh collection is
empty, so even shadow-free duplication reads as version 0 = version 0). -/
theorem databaseVersion_addCollection (e : Executor) (nm : String) (us is₂ : List String) :
    databaseVersion { e with loki := addCollection e.loki nm us is₂ } = databaseVersion e := by
  unfold databaseVersion getLocal findLocal getCollection addCollection
  dsimp only
  rw [alGet_append]
  cases hg : alGet e.loki.collections "local_storage" with
  | some c => rfl
  | none =>
    by_cases hn : nm = "local_storage"
    · subst hn
      rfl
    · simp [alGet, hn]

theorem databaseVersion_executeCreateTable (e : Executor) (nm : String)
    (cols : List ColumnSchema) :
    databaseVersion (executeCreateTableMigration e nm cols) = databaseVersion e :=
  databaseVersion_addCollection e nm ["id"] ("_status" :: indexedColumnNames cols)

theorem databaseVersion_executeAddColumns (e : Executor) (t : String)
    (cols : List ColumnSchema) (ht : t ≠ "local_storage") :
    databaseVersion (executeAddColumnsMigration e t cols).2 = databaseVersion e := by
  unfold executeAddColumnsMigration
  cases hc : getCollection e.loki t with
  | none => rfl
  | some c =>
    dsimp only
    apply databaseVersion_eq_of_localStorage_eq
    unfold getCollection setCollection
    dsimp only
    rw [alGet_alSet, if_neg ht]

theorem c2_step_preserves (e : Executor) (s : MigrationStep)
    (hs : ∀ t cols, s = MigrationStep.addColumns t cols → t ≠ "local_storage") :
    databaseVersion (executeMigrationStep e s).2 = databaseVersion e := by
  cases s with
  | createTable nm cols => exact databaseVersion_executeCreateTable e nm cols
  | addColumns t cols => exact databaseVersion_executeAddColumns e t cols (hs t cols rfl)
  | unknown tag => rfl

/-- C2 counterexample: a migration step list containing an unknown tag, whose
preceding `add_columns` step targets the reserved `local_storage` collection.
`_migrate` aborts with the surfaced `Unsupported migration step` error, but
the bulk rewrite of the first step already clobbered the marker document's
`value` field, so the persisted version marker reads 0 instead of its
pre-migration value 5. -/
theorem S2P_C2_counterexample :
    (migrate execV5 badSteps).1 = Except.error "Unsupported migration step rename_column" ∧
    databaseVersion execV5 = 5 ∧
    databaseVersion (migrate execV5 badSteps).2 = 0 := by
  decide

/-- C2 (amended): for every step sequence containing a step whose type is
neither `create_table` nor `add_columns`, `_migrate` aborts with a surfaced
error; and provided no `add_columns` step targets the reserved
`local_storage` collection, the persisted schema-version marker equals its
pre-migration value (the marker is advanced only after all steps succeed). -/
theorem S2P_C2_migration_abort (e : Executor) (steps : List MigrationStep)
    (hbad : ∃ tag, MigrationStep.unknown tag ∈ steps)
    (hres : ∀ t cols, MigrationStep.addColumns t cols ∈ steps → t ≠ "local_storage") :
    (∃ msg, (migrate e steps).1 = Except.error msg) ∧
    databaseVersion (migrate e steps).2 = databaseVersion e := by
  have main : ∀ steps₂ : List MigrationStep, ∀ e₂ : Executor,
      (∃ tag, MigrationStep.unknown tag ∈ steps₂) →
      (∀ t cols, MigrationStep.addColumns t cols ∈ steps₂ → t ≠ "local_storage") →
      (∃ msg, (runMigrationSteps e₂ steps₂).1 = Except.error msg) ∧
      databaseVersion (runMigrationSteps e₂ steps₂).2 = databaseVersion e₂ := by
    intro steps₂
    induction steps₂ with
    | nil =>
      intro e₂ hb _
      obtain ⟨tag, htag⟩ := hb
      simp at htag
    | cons s rest ih =>
      intro e₂ hb hr
      have hstep_pres : databaseVersion (executeMigrationStep e₂ s).2 = databaseVersion e₂ :=
        c2_step_preserves e₂ s
          (fun t cols hseq => hr t cols (hseq ▸ List.mem_cons_self s rest))
      unfold runMigrationSteps
      cases hexec : executeMigrationStep e₂ s with
      | mk r e₃ =>
        rw [hexec] at hstep_pres
        cases r with
        | error msg =>
          dsimp only
          exact ⟨⟨msg, rfl⟩, hstep_pres⟩
        | ok u =>
          dsimp only
          have hb₂ : ∃ tag, MigrationStep.unknown tag ∈ rest := by
            obtain ⟨tag, htag⟩ := hb
            rcases List.mem_cons.mp htag with heq | hmem
            · rw [← heq] at hexec
              simp [executeMigrationStep] at hexec
            · exact ⟨tag, hmem⟩
          obtain ⟨habort, hpres⟩ :=
            ih e₃ hb₂ (fun t cols hm => hr t cols (List.mem_cons_of_mem _ hm))
          exact ⟨habort, by rw [hpres, hstep_pres]⟩
  obtain ⟨habort, hpres⟩ := main steps e hbad hres
  unfold migrate
  obtain ⟨msg, hmsg⟩ := habort
  cases hrun : runMigrationSteps e steps with
  | mk r e₂ =>
    rw [hrun] at hmsg hpres
    cases r with
    | ok u => simp at hmsg
    | error m =>
      dsimp only
      exact ⟨⟨m, rfl⟩, hpres⟩

-- ## AddColumns frame lemmas (for C8)

theorem getCollection_setCollection_self (db : Loki) (t : String) (c : LokiCollection) :
    getCollection (setCollection db t c) t = some c := by
  unfold getCollection setCollection
  dsimp only
  rw [alGet_alSet, if_pos rfl]

theorem getField_addDefaultFields_notmem (cols : List ColumnSchema) :
    ∀ (fs : Fields) (k : String), k ∉ cols.map ColumnSchema.name →
      getField (addDefaultFields cols fs) k = getField fs k := by
  induction cols with
  | nil => intro fs k _; rfl
  | cons c rest ih =>
    intro fs k hk
    simp only [List.map_cons, List.mem_cons, not_or] at hk
    unfold addDefaultFields
    rw [List.foldl_cons]
    have h₂ := ih (setRawSanitized fs c.name c) k hk.2
    unfold addDefaultFields at h₂
    rw [h₂]
    unfold setRawSanitized
    rw [getField_setField, if_neg (fun h => hk.1 h.symm)]

theorem getField_addDefaultFields_mem (cols : List ColumnSchema) :
    ∀ (fs : Fields) (col : ColumnSchema), col ∈ cols →
      (cols.map ColumnSchema.name).Nodup →
      getField (addDefaultFields cols fs) col.name = some (sanitizedDefault col) := by
  induction cols with
  | nil => intro fs col h _; simp at h
  | cons c rest ih =>
    intro fs col hmem hnodup
    simp only [List.map_cons, List.nodup_cons] at hnodup
    rcases List.mem_cons.mp hmem with heq | hmem₂
    · subst heq
      unfold addDefaultFields
      rw [List.foldl_cons]
      have hfr := getField_addDefaultFields_notmem rest (setRawSanitized fs col.name col)
        col.name hnodup.1
      unfold addDefaultFields at hfr
      rw [hfr]
      unfold setRawSanitized
      rw [getField_setField, if_pos rfl]
    · unfold addDefaultFields
      rw [List.foldl_cons]
      have h₃ := ih (setRawSanitized fs c.name c) col hmem₂ hnodup.2
      unfold addDefaultFields at h₃
      exact h₃

theorem mem_ensureIndex (c : LokiCollection) (nm k : String) :
    k ∈ (ensureIndex c nm).indices ↔ k ∈ c.indices ∨ k = nm := by
  unfold ensureIndex
  by_cases h : c.indices.contains nm
  · rw [if_pos h]
    have hmem : nm ∈ c.indices := by simpa [List.contains] using h
    constructor
    · exact fun hk => Or.inl hk
    · rintro (hk | hk)
      · exact hk
      · exact hk ▸ hmem
  · rw [if_neg h]
    dsimp only
    rw [List.mem_append, List.mem_singleton]

theorem records_foldl_ensureIndex (cols : List ColumnSchema) :
    ∀ c : LokiCollection,
      (cols.foldl (fun acc col => if col.isIndexed then ensureIndex acc col.name else acc)
        c).records = c.records := by
  induction cols with
  | nil => intro c; rfl
  | cons col rest ih =>
    intro c
    rw [List.foldl_cons, ih]
    unfold ensureIndex
    split_ifs <;> rfl

theorem mem_indices_foldl_ensureIndex (cols : List ColumnSchema) :
    ∀ (c : LokiCollection) (k : String),
      k ∈ (cols.foldl (fun acc col => if col.isIndexed then ensureIndex acc col.name else acc)
          c).indices ↔
        k ∈ c.indices ∨ ∃ col, col ∈ cols ∧ col.isIndexed = true ∧ col.name = k := by
  induction cols with
  | nil =>
    intro c k
    simp
  | cons col rest ih =>
    intro c k
    rw [List.foldl_cons, ih]
    by_cases h : col.isIndexed
    · rw [if_pos h, mem_ensureIndex]
      constructor
      · rintro ((hk | hk) | ⟨c₂, hc₂, hi, hn⟩)
        · exact Or.inl hk
        · exact Or.inr ⟨col, List.mem_cons_self _ _, h, hk.symm⟩
        · exact Or.inr ⟨c₂, List.mem_cons_of_mem _ hc₂, hi, hn⟩
      · rintro (hk | ⟨c₂, hc₂, hi, hn⟩)
        · exact Or.inl (Or.inl hk)
        · rcases List.mem_cons.mp hc₂ with heq | hm
          · subst heq
            exact Or.inl (Or.inr hn.symm)
          · exact Or.inr ⟨c₂, hm, hi, hn⟩
    · rw [if_neg h]
      constructor
      · rintro (hk | ⟨c₂, hc₂, hi, hn⟩)
        · exact Or.inl hk
        · exact Or.inr ⟨c₂, List.mem_cons_of_mem _ hc₂, hi, hn⟩
      · rintro (hk | ⟨c₂, hc₂, hi, hn⟩)
        · exact Or.inl hk
        · rcases List.mem_cons.mp hc₂ with heq | hm
          · subst heq
            exact absurd hi h
          · exact Or.inr ⟨c₂, hm, hi, hn⟩

/-- C2 witness for the amended claim: benign steps ending in an unknown tag
abort with an error and leave the marker at its pre-migration value 5. -/
theorem S2P_C2_witness :
    (∃ msg, (migrate execV5 benignBadSteps).1 = Except.error msg) ∧
    databaseVersion (migrate execV5 benignBadSteps).2 = databaseVersion execV5 :=
  S2P_C2_migration_abort execV5 benignBadSteps ⟨"rename_column", by decide⟩
    (fun t cols hm => by
      rcases List.mem_cons.mp hm with heq | hmem
      · cases heq
      · rcases List.mem_cons.mp hmem with heq₂ | hmem₂
        · cases heq₂
        · simp at hmem₂)

/-- C8: AddColumns migration frame property: applied to an existing
collection, every record gets each new column set to its sanitized default
while every other field keeps its prior value (and the store identity is
untouched); afterwards the collection's indices are the old ones plus exactly
the new columns whose `isIndexed` flag is true. -/
theorem S2P_C8_add_columns_frame (e : Executor) (t : String) (columns : List ColumnSchema)
    (c : LokiCollection)
    (hc : getCollection e.loki t = some c)
    (hnodup : (columns.map ColumnSchema.name).Nodup) :
    (executeAddColumnsMigration e t columns).1 = Except.ok () ∧
    ∃ c₂, getCollection (executeAddColumnsMigration e t columns).2.loki t = some c₂ ∧
      List.Forall₂ (fun old new =>
        new.lokiId = old.lokiId ∧
        (∀ col ∈ columns, getField new.fields col.name = some (sanitizedDefault col)) ∧
        (∀ k, k ∉ columns.map ColumnSchema.name →
          getField new.fields k = getField old.fields k))
        c.records c₂.records ∧
      (∀ k, k ∈ c₂.indices ↔ k ∈ c.indices ∨
        ∃ col, col ∈ columns ∧ col.isIndexed = true ∧ col.name = k) := by
  unfold executeAddColumnsMigration
  rw [hc]
  dsimp only
  refine ⟨rfl, _, getCollection_setCollection_self _ _ _, ?_, ?_⟩
  · rw [records_foldl_ensureIndex]
    dsimp only
    rw [List.forall₂_map_right_iff, List.forall₂_same]
    intro d _
    refine ⟨rfl, ?_, ?_⟩
    · exact fun col hcol => getField_addDefaultFields_mem columns d.fields col hcol hnodup
    · exact fun k hk => getField_addDefaultFields_notmem columns d.fields k hk
  · intro k
    rw [mem_indices_foldl_ensureIndex]

-- ## Step equations for batch operations (for C6)

theorem loki_markAsCached (e : Executor) (t y : String) :
    (markAsCached e t y).loki = e.loki := by
  unfold markAsCached
  cases alGet e.cachedRecords t <;> rfl

theorem loki_removeFromCache (e : Executor) (t y : String) :
    (removeFromCache e t y).loki = e.loki := by
  unfold removeFromCache
  cases alGet e.cachedRecords t <;> rfl

theorem create_eq (e : Executor) (t : String) (raw : RawRecord) (c : LokiCollection)
    (hc : getCollection e.loki t = some c) :
    create e t raw = (Except.ok (),
      markAsCached
        { e with loki := setCollection e.loki t { c with
            records := c.records ++ [⟨c.maxId + 1, rawToFields raw⟩],
            maxId := c.maxId + 1 } }
        t raw.id) := by
  unfold create
  rw [hc]

theorem update_eq (e : Executor) (t : String) (raw : RawRecord) (c : LokiCollection)
    (d : LokiDoc) (hc : getCollection e.loki t = some c) (hd : byId c raw.id = some d) :
    update e t raw = (Except.ok (),
      { e with loki := setCollection e.loki t { c with
          records := c.records.map (fun r =>
            if r.lokiId = d.lokiId then ⟨d.lokiId, rawToFields raw⟩ else r) } }) := by
  unfold update
  rw [hc]
  dsimp only
  rw [hd]

theorem destroyPermanently_eq (e : Executor) (t x : String) (c : LokiCollection)
    (d : LokiDoc) (hc : getCollection e.loki t = some c) (hd : byId c x = some d) :
    destroyPermanently e t x = (Except.ok (),
      removeFromCache
        { e with loki := setCollection e.loki t { c with
            records := c.records.filter (fun r => r.lokiId != d.lokiId) } }
        t x) := by
  unfold destroyPermanently
  rw [hc]
  dsimp only
  rw [hd]

theorem batch_cons_ok (e e₂ : Executor) (op : WorkerBatchOperation)
    (rest : List WorkerBatchOperation)
    (h : applyOperation e op = (Except.ok (), e₂)) :
    batch e (op :: rest) = batch e₂ rest := by
  conv_lhs => unfold batch
  rw [h]

theorem batch_singleton (e : Executor) (op : WorkerBatchOperation) :
    batch e [op] = applyOperation e op := by
  unfold batch
  cases h : applyOperation e op with
  | mk r e₂ => cases r <;> rfl

/-- C8 witness: two new columns (`due` indexed, `note` not) over a two-record
collection. -/
theorem S2P_C8_witness :
    (executeAddColumnsMigration c8Exec "tasks" c8Columns).1 = Except.ok () ∧
    ∃ c₂, getCollection (executeAddColumnsMigration c8Exec "tasks" c8Columns).2.loki "tasks" =
        some c₂ ∧
      List.Forall₂ (fun old new =>
        new.lokiId = old.lokiId ∧
        (∀ col ∈ c8Columns, getField new.fields col.name = some (sanitizedDefault col)) ∧
        (∀ k, k ∉ c8Columns.map ColumnSchema.name →
          getField new.fields k = getField old.fields k))
        c8Collection.records c₂.records ∧
      (∀ k, k ∈ c₂.indices ↔ k ∈ c8Collection.indices ∨
        ∃ col, col ∈ c8Columns ∧ col.isIndexed = true ∧ col.name = k) :=
  S2P_C8_add_columns_frame c8Exec "tasks" c8Columns c8Collection (by decide) (by decide)

/-- C6: batch create → update → destroy leaves no trace: for a record id
absent from both store and cache, the batch executes the three operations
strictly in that order (the batch result is exactly their sequential
composition), succeeds, and afterwards no record with the id exists in the
store and the id is not in the cache. -/
theorem S2P_C6_batch_no_trace (e : Executor) (t x : String) (c : LokiCollection)
    (a b : RawRecord)
    (hc : getCollection e.loki t = some c)
    (hstore : byId c x = none)
    (hfresh : ∀ d ∈ c.records, d.lokiId ≠ c.maxId + 1)
    (_hcache : isCached e t x = false)
    (ha : a.id = x) (hb : b.id = x) :
    batch e (c6Operations t a b) =
      destroyPermanently (update (create e t a).2 t b).2 t b.id ∧
    (batch e (c6Operations t a b)).1 = Except.ok () ∧
    lookupRecord (batch e (c6Operations t a b)).2 t x = none ∧
    isCached (batch e (c6Operations t a b)).2 t x = false := by
  have hstore' : List.find? (fun r => docHasId r x) c.records = none := hstore
  have hd₀ : docHasId (⟨c.maxId + 1, rawToFields a⟩ : LokiDoc) x = true := by
    rw [← ha]
    exact docHasId_rawToFields _ a
  have hd₁ : docHasId (⟨c.maxId + 1, rawToFields b⟩ : LokiDoc) x = true := by
    rw [← hb]
    exact docHasId_rawToFields _ b
  have hcreate := create_eq e t a c hc
  have hget₁ : getCollection (create e t a).2.loki t =
      some { c with records := c.records ++ [⟨c.maxId + 1, rawToFields a⟩],
                    maxId := c.maxId + 1 } := by
    rw [hcreate]
    dsimp only
    rw [loki_markAsCached]
    exact getCollection_setCollection_self _ _ _
  have hbyId₁ : byId { c with
      records := c.records ++ [(⟨c.maxId + 1, rawToFields a⟩ : LokiDoc)],
      maxId := c.maxId + 1 } b.id = some ⟨c.maxId + 1, rawToFields a⟩ := by
    rw [hb]
    unfold byId
    dsimp only
    rw [List.find?_append, hstore', Option.none_or]
    exact List.find?_cons_of_pos _ hd₀
  have hupdate := update_eq (create e t a).2 t b _ _ hget₁ hbyId₁
  dsimp only at hupdate
  have hmap : (c.records ++ [(⟨c.maxId + 1, rawToFields a⟩ : LokiDoc)]).map (fun r =>
      if r.lokiId = c.maxId + 1 then (⟨c.maxId + 1, rawToFields b⟩ : LokiDoc) else r) =
      c.records ++ [⟨c.maxId + 1, rawToFields b⟩] := by
    rw [List.map_append]
    congr 1
    · exact map_eq_self_of _ _ (fun d hd => if_neg (hfresh d hd))
    · simp
  rw [hmap] at hupdate
  have hget₂ : getCollection (update (create e t a).2 t b).2.loki t =
      some { c with records := c.records ++ [⟨c.maxId + 1, rawToFields b⟩],
                    maxId := c.maxId + 1 } := by
    rw [hupdate]
    dsimp only
    exact getCollection_setCollection_self _ _ _
  have hbyId₂ : byId { c with
      records := c.records ++ [(⟨c.maxId + 1, rawToFields b⟩ : LokiDoc)],
      maxId := c.maxId + 1 } b.id = some ⟨c.maxId + 1, rawToFields b⟩ := by
    rw [hb]
    unfold byId
    dsimp only
    rw [List.find?_append, hstore', Option.none_or]
    exact List.find?_cons_of_pos _ hd₁
  have hdestroy := destroyPermanently_eq (update (create e t a).2 t b).2 t b.id _ _ hget₂ hbyId₂
  dsimp only at hdestroy
  have hfilter : (c.records ++ [(⟨c.maxId + 1, rawToFields b⟩ : LokiDoc)]).filter
      (fun r => r.lokiId != c.maxId + 1) = c.records := by
    rw [List.filter_append]
    have h₁ : c.records.filter (fun r => r.lokiId != c.maxId + 1) = c.records :=
      List.filter_eq_self.mpr (fun d hd => by simpa using hfresh d hd)
    rw [h₁]
    simp
  rw [hfilter] at hdestroy
  have s1 : applyOperation e (WorkerBatchOperation.create t a) =
      (Except.ok (), (create e t a).2) := by
    dsimp only [applyOperation]
    rw [hcreate]
  have s2 : applyOperation (create e t a).2 (WorkerBatchOperation.update t b) =
      (Except.ok (), (update (create e t a).2 t b).2) := by
    dsimp only [applyOperation]
    rw [hupdate]
  have hbatch : batch e (c6Operations t a b) =
      destroyPermanently (update (create e t a).2 t b).2 t b.id := by
    unfold c6Operations
    rw [batch_cons_ok _ _ _ _ s1, batch_cons_ok _ _ _ _ s2, batch_singleton]
    rfl
  refine ⟨hbatch, ?_, ?_, ?_⟩
  · rw [hbatch, hdestroy]
  · rw [hbatch, hdestroy]
    dsimp only
    unfold lookupRecord
    rw [loki_removeFromCache, getCollection_setCollection_self]
    exact hstore
  · rw [hbatch, hdestroy, hb]
    exact isCached_removeFromCache_self _ _ _

/-- C6 witness: on the freshly reset database (no `r1` anywhere), the batch
create/update/destroy of `r1` runs in order and leaves no trace. -/
theorem S2P_C6_witness :
    batch exec1 (c6Operations "tasks" rawA rawB) =
      destroyPermanently (update (create exec1 "tasks" rawA).2 "tasks" rawB).2 "tasks" rawB.id ∧
    (batch exec1 (c6Operations "tasks" rawA rawB)).1 = Except.ok () ∧
    lookupRecord (batch exec1 (c6Operations "tasks" rawA rawB)).2 "tasks" "r1" = none ∧
    isCached (batch exec1 (c6Operations "tasks" rawA rawB)).2 "tasks" "r1" = false :=
  S2P_C6_batch_no_trace exec1 "tasks" "r1" ⟨[], 0, ["id"], ["_status"]⟩ rawA rawB
    (by decide) (by decide) (by decide) (by decide) (by decide) (by decide)

end WatermelonLoki
